import Mathlib

/-!
Verification of the ModSync reconciliation engine.

The Rust sources (src/types/types.rs, src/modmanager/lib.rs) are shallowly
embedded here.  Strings are modelled as lists of characters (`Str`), file
contents as lists of bytes (`Bytes`), and the filesystem / network / fallible
standard-library calls as an explicit `World` record of oracles that is
threaded through every operation.  The SHA-256 compression itself is an
abstract function `hashFn : Bytes → Nat`; the hex formatting of its 256-bit
digest (64 lowercase hex characters, as produced by `format!` with the
lower-hex formatter on a 32-byte digest) is modelled concretely, since only
the formatting layer matters for the properties proved here.
-/

namespace ModSync

/-- Rust `str` contents, modelled as a list of characters. -/
abbrev Str := List Char

/-- Rust `Vec<u8>` / `bytes::Bytes` file contents. -/
abbrev Bytes := List Nat

/-- Whitespace as recognised by `str::trim`: the Unicode White_Space set
used by `char::is_whitespace` — U+0009..U+000D, U+0020, U+0085, U+00A0,
U+1680, U+2000..U+200A, U+2028, U+2029, U+202F, U+205F and U+3000. -/
def isWs (c : Char) : Bool :=
  (9 ≤ c.toNat && c.toNat ≤ 13) || c.toNat == 32 || c.toNat == 133 ||
  c.toNat == 160 || c.toNat == 5760 ||
  (8192 ≤ c.toNat && c.toNat ≤ 8202) || c.toNat == 8232 ||
  c.toNat == 8233 || c.toNat == 8239 || c.toNat == 8287 || c.toNat == 12288

/-- `str::trim_start`. -/
def trimStart (s : Str) : Str := s.dropWhile isWs

/-- `str::trim_end`. -/
def trimEnd (s : Str) : Str := (s.reverse.dropWhile isWs).reverse

/-- `str::trim`: drop leading and trailing whitespace. -/
def trim (s : Str) : Str := trimEnd (trimStart s)

/-- Rust `str::split(sep)` collected into a `Vec`: the list of chunks between
occurrences of `sep`.  Always returns at least one (possibly empty) chunk. -/
def splitSep (sep : Char) : Str → List Str
  | [] => [[]]
  | c :: rest =>
    if c == sep then
      [] :: splitSep sep rest
    else
      match splitSep sep rest with
      | [] => [[c]]
      | t :: ts => (c :: t) :: ts

/-- ASCII lowercasing of one character, as in `u8::to_ascii_lowercase`. -/
def asciiLower (c : Char) : Char :=
  if 65 ≤ c.toNat ∧ c.toNat ≤ 90 then Char.ofNat (c.toNat + 32) else c

/-- Rust `str::eq_ignore_ascii_case`. -/
def eqIgnoreAsciiCase (a b : Str) : Bool :=
  a.map asciiLower == b.map asciiLower

/-- Strip one trailing carriage return, as `str::lines` does per line. -/
def stripTrailingCr (l : Str) : Str :=
  if l.getLast? == some '\r' then l.dropLast else l

/-- Rust `str::lines`: split on newline, drop a trailing empty chunk, strip a
trailing carriage return from each line. -/
def linesOf (s : Str) : List Str :=
  let ls := splitSep '\n' s
  let ls := if ls.getLast? == some ([] : Str) then ls.dropLast else ls
  ls.map stripTrailingCr

/-- `ModEntry` from src/types/types.rs. -/
structure ModEntry where
  filename : Str
  url : Str
  sha256 : Option Str
  category : Str
deriving DecidableEq, Repr

/-- `ModEntry::is_required` from src/types/types.rs. -/
def ModEntry.is_required (e : ModEntry) : Bool :=
  eqIgnoreAsciiCase e.category ('R' :: 'E' :: 'Q' :: 'U' :: 'I' :: 'R' :: 'E' :: 'D' :: [])

/-- The reserved `REMOVE` category test used by `handle_entry`
(`entry.category.eq_ignore_ascii_case("REMOVE")`). -/
def isRemoveCategory (e : ModEntry) : Bool :=
  eqIgnoreAsciiCase e.category ('R' :: 'E' :: 'M' :: 'O' :: 'V' :: 'E' :: [])

/-- `parse_line` from src/types/types.rs: trim, skip empty and `#` comment
lines, split on the pipe, require three fields, keep an optional fourth as
the expected digest. -/
def parse_line (line : Str) : Option ModEntry :=
  let l := trim line
  if l.isEmpty || l.head? == some '#' then
    none
  else
    let parts := splitSep '|' l
    match parts[0]?, parts[1]?, parts[2]? with
    | some category, some filename, some url =>
      some { filename := filename, url := url, sha256 := parts[3]?,
             category := category }
    | _, _, _ => none

/-- The parsing stage of `ModManager::load_mod_entries`
(`text.lines().filter_map(parse_line).collect()`), applied to already
loaded manifest text. -/
def load_mod_entries_text (text : Str) : List ModEntry :=
  (linesOf text).filterMap parse_line

/-- Modelled from the spec: the repository has no serializer for entries, but
section 8 of the spec states a parse → serialize → parse law, so the
serializer is taken from the documented external line format
`Category|Filename|URL|SHA256`, the digest field omitted when absent. -/
def serialize_entry (e : ModEntry) : Str :=
  e.category ++ '|' :: e.filename ++ '|' :: e.url ++
    (match e.sha256 with
     | some d => '|' :: d
     | none => [])

/-- One lowercase hexadecimal digit, as the Rust lower-hex formatter emits. -/
def hexDigit (n : Nat) : Char :=
  if n < 10 then Char.ofNat (48 + n) else Char.ofNat (87 + n)

/-- Lower-hex formatting of a 256-bit digest value: exactly 64 lowercase hex
characters, most significant first, as `format!` with the lower-hex formatter
produces for the 32-byte output of `Sha256::finalize`. -/
def toHex64 (n : Nat) : Str :=
  (List.range 64).map (fun i => hexDigit (n / 16 ^ (63 - i) % 16))

/-- Error context string of `sha256_file`. -/
def msgReadHashFail : Str := "Failed to read file for hashing".toList

/-- Error context string of the send stage of `download_mod`. -/
def msgFailedDownload (f : Str) : Str := "Failed to download ".toList ++ f

/-- Error context string of the body-read stage of `download_mod`. -/
def msgFailedReadResp (f : Str) : Str := "Failed to read response for ".toList ++ f

/-- Error context string of the write stage of `download_mod`. -/
def msgFailedWrite (f : Str) : Str := "Failed to write ".toList ++ f

/-- The SHA-256 mismatch message of `check_and_download` and `download_mod`,
naming the file, the expected digest and the actual digest. -/
def msgMismatch (f expected actual : Str) : Str :=
  "SHA256 mismatch for ".toList ++ f ++ " (expected ".toList ++ expected ++
    ", got ".toList ++ actual ++ ")".toList

/-- Error context string of the directory-creation step of
`sync_all_from_entries`. -/
def msgCreateDirFail : Str := "Failed to create mods folder".toList

/-- Display of `tokio::sync::mpsc::error::SendError`, propagated by the `?`
on the terminal `Finished` send in `sync_all_from_entries`. -/
def msgChannelClosed : Str := "channel closed".toList

/-- Failure mode of the two-stage network fetch in `download_mod`:
`send()` fails, or reading the response body fails. -/
inductive NetErr where
  | sendFail
  | readFail
deriving DecidableEq, Repr

/-- The ambient world the engine's side effects act on: contents of the
`mods` folder keyed by file name, the network keyed by URL, and oracles
deciding which fallible standard-library calls fail. -/
structure World where
  fs : Str → Option Bytes
  fetch : Str → Except NetErr Bytes
  writeFails : Str → Bool
  removeErr : Str → Option Str
  readFails : Str → Bool
  modsDirExists : Bool
  mkdirOk : Bool

/-- `ModManager::sha256_file`: read the file, hash it, format in lower hex.
`hashFn` abstracts the SHA-256 compression; `toHex64` is the formatting. -/
def sha256_file (hashFn : Bytes → Nat) (w : World) (path : Str) : Except Str Str :=
  if w.readFails path then Except.error msgReadHashFail
  else
    match w.fs path with
    | some data => Except.ok (toHex64 (hashFn data))
    | none => Except.error msgReadHashFail

/-- `ModManager::download_mod`: fetch the bytes, write them to the target
path, then if an expected digest was given recompute over the freshly
written file and compare case-insensitively.  Returns the possibly changed
world alongside the result. -/
def download_mod (hashFn : Bytes → Nat) (w : World) (e : ModEntry) :
    Except Str Unit × World :=
  match w.fetch e.url with
  | Except.error NetErr.sendFail => (Except.error (msgFailedDownload e.filename), w)
  | Except.error NetErr.readFail => (Except.error (msgFailedReadResp e.filename), w)
  | Except.ok bytes =>
    if w.writeFails e.filename then
      (Except.error (msgFailedWrite e.filename), w)
    else
      let w9 : World := { w with fs := fun p => if p = e.filename then some bytes else w.fs p }
      match e.sha256 with
      | some expected =>
        match sha256_file hashFn w9 e.filename with
        | Except.error m => (Except.error m, w9)
        | Except.ok actual =>
          if eqIgnoreAsciiCase actual expected then (Except.ok (), w9)
          else (Except.error (msgMismatch e.filename expected actual), w9)
      | none => (Except.ok (), w9)

/-- `ModManager::check_and_download`: if the local file exists, verify the
digest when one is expected and report `false` (nothing downloaded);
otherwise download and report `true`. -/
def check_and_download (hashFn : Bytes → Nat) (w : World) (e : ModEntry) :
    Except Str Bool × World :=
  if (w.fs e.filename).isSome then
    match e.sha256 with
    | some expected =>
      match sha256_file hashFn w e.filename with
      | Except.error m => (Except.error m, w)
      | Except.ok actual =>
        if eqIgnoreAsciiCase actual expected then (Except.ok false, w)
        else (Except.error (msgMismatch e.filename expected actual), w)
    | none => (Except.ok false, w)
  else
    match download_mod hashFn w e with
    | (Except.ok _, w1) => (Except.ok true, w1)
    | (Except.error m, w1) => (Except.error m, w1)

/-- `SyncReport`: the four outcome buckets of one completed run. -/
structure SyncReport where
  downloaded : List ModEntry
  unchanged : List ModEntry
  removed : List ModEntry
  failed : List (ModEntry × Str)
deriving DecidableEq, Repr

/-- `SyncEvent`: per-entry outcome notifications and the terminal report. -/
inductive SyncEvent where
  | downloadedEv (filename : Str)
  | unchangedEv (filename : Str)
  | removedEv (filename : Str)
  | failedEv (filename : Str) (error : Str)
  | finished (report : SyncReport)
deriving DecidableEq, Repr

/-- The `tokio::sync::mpsc` unbounded channel as the producer sees it: a
closed flag (the receiver was dropped) and the list of delivered events. -/
structure EventChannel where
  closed : Bool
  delivered : List SyncEvent
deriving DecidableEq, Repr

/-- `UnboundedSender::send`: fails exactly when the receiver is gone, in
which case the event is not delivered. -/
def chanSend (ch : EventChannel) (ev : SyncEvent) : Except Unit Unit × EventChannel :=
  if ch.closed then (Except.error (), ch)
  else (Except.ok (), { ch with delivered := ch.delivered ++ [ev] })

/-- The free function `send_event`: send if a sender is present, ignore the
result (`let _ = tx.send(event);`). -/
def send_event (tx : Option EventChannel) (ev : SyncEvent) : Option EventChannel :=
  match tx with
  | none => none
  | some ch => some (chanSend ch ev).2

/-- `SyncProgress`: the shared progress counters.  The atomics become plain
naturals in this sequentialised embedding. -/
structure SyncProgress where
  total : Nat
  processed : Nat
  downloaded : Nat
  unchanged : Nat
  removed : Nat
  failed : Nat
  last_mod : Option Str
deriving DecidableEq, Repr

/-- `SyncProgress::new`. -/
def SyncProgress.new (total : Nat) : SyncProgress :=
  { total := total, processed := 0, downloaded := 0, unchanged := 0,
    removed := 0, failed := 0, last_mod := none }

/-- The `SyncProgress::processed` METHOD (distinct from the `processed`
field): the sum of the four outcome counters. -/
def SyncProgress.processedSum (p : SyncProgress) : Nat :=
  p.downloaded + p.unchanged + p.removed + p.failed

/-- `SyncProgress::set_last_mod`. -/
def SyncProgress.set_last_mod (p : SyncProgress) (filename : Str) : SyncProgress :=
  { p with last_mod := some filename }

/-- The internal `EntryResult` enum of src/modmanager/lib.rs. -/
inductive EntryResult where
  | downloaded (e : ModEntry)
  | unchanged (e : ModEntry)
  | removed (e : ModEntry)
  | failed (e : ModEntry) (msg : Str)
deriving DecidableEq, Repr

/-- The four outcome classifications, without the carried entry. -/
inductive OutcomeKind where
  | downloaded
  | unchanged
  | removed
  | failed
deriving DecidableEq, Repr

/-- Classification of an `EntryResult`. -/
def EntryResult.kind : EntryResult → OutcomeKind
  | .downloaded _ => .downloaded
  | .unchanged _ => .unchanged
  | .removed _ => .removed
  | .failed _ _ => .failed

/-- The failure message carried by an `EntryResult`, when any. -/
def EntryResult.message? : EntryResult → Option Str
  | .failed _ m => some m
  | _ => none

/-- The entry carried by an `EntryResult`. -/
def EntryResult.entryOf : EntryResult → ModEntry
  | .downloaded e => e
  | .unchanged e => e
  | .removed e => e
  | .failed e _ => e

/-- The branch body of `ModManager::handle_entry`: the REMOVE branch
(delete if present) or the check-and-download branch, with the matching
counter increment and event emission. -/
def handleEntryCore (hashFn : Bytes → Nat) (e : ModEntry) (w : World)
    (p : SyncProgress) (tx : Option EventChannel) :
    EntryResult × World × SyncProgress × Option EventChannel :=
  if isRemoveCategory e then
    if (w.fs e.filename).isSome then
      match w.removeErr e.filename with
      | none =>
        (EntryResult.removed e,
         { w with fs := fun q => if q = e.filename then none else w.fs q },
         { p with removed := p.removed + 1 },
         send_event tx (SyncEvent.removedEv e.filename))
      | some msg =>
        (EntryResult.failed e msg, w, { p with failed := p.failed + 1 },
         send_event tx (SyncEvent.failedEv e.filename msg))
    else
      (EntryResult.unchanged e, w, { p with unchanged := p.unchanged + 1 },
       send_event tx (SyncEvent.unchangedEv e.filename))
  else
    match check_and_download hashFn w e with
    | (Except.ok true, w1) =>
      (EntryResult.downloaded e, w1, { p with downloaded := p.downloaded + 1 },
       send_event tx (SyncEvent.downloadedEv e.filename))
    | (Except.ok false, w1) =>
      (EntryResult.unchanged e, w1, { p with unchanged := p.unchanged + 1 },
       send_event tx (SyncEvent.unchangedEv e.filename))
    | (Except.error m, w1) =>
      (EntryResult.failed e m, w1, { p with failed := p.failed + 1 },
       send_event tx (SyncEvent.failedEv e.filename m))

/-- `ModManager::handle_entry`: the branch body followed by
`set_last_mod` and the `processed` increment. -/
def handle_entry (hashFn : Bytes → Nat) (e : ModEntry) (w : World)
    (p : SyncProgress) (tx : Option EventChannel) :
    EntryResult × World × SyncProgress × Option EventChannel :=
  match handleEntryCore hashFn e w p tx with
  | (r, w1, p1, tx1) =>
    (r, w1, { p1.set_last_mod e.filename with processed := p1.processed + 1 }, tx1)

/-- Resolution of the whole entry sequence, sequentialised: the claims
proved over this fold are interleaving-independent (each entry contributes
exactly one result and one set of counter increments), and no two entries
are expected to touch the same file. -/
def run_entries (hashFn : Bytes → Nat) (entries : List ModEntry) (w : World)
    (p : SyncProgress) (tx : Option EventChannel) :
    List EntryResult × World × SyncProgress × Option EventChannel :=
  match entries with
  | [] => ([], w, p, tx)
  | e :: rest =>
    match handle_entry hashFn e w p tx with
    | (r, w1, p1, tx1) =>
      match run_entries hashFn rest w1 p1 tx1 with
      | (rs, w2, p2, tx2) => (r :: rs, w2, p2, tx2)

/-- The collection loop of `sync_all_from_entries`: push each result into
the bucket of its constructor, keeping completion order. -/
def bucketResults : List EntryResult → SyncReport
  | [] => { downloaded := [], unchanged := [], removed := [], failed := [] }
  | r :: rs =>
    let rep := bucketResults rs
    match r with
    | EntryResult.downloaded e => { rep with downloaded := e :: rep.downloaded }
    | EntryResult.unchanged e => { rep with unchanged := e :: rep.unchanged }
    | EntryResult.removed e => { rep with removed := e :: rep.removed }
    | EntryResult.failed e m => { rep with failed := (e, m) :: rep.failed }

/-- The body of `sync_all_from_entries` once the mods folder is known to
exist: resolve every entry, bucket the results, then send the terminal
`Finished` event — whose send error, unlike the per-entry sends, is
propagated by `?`. -/
def syncCore (hashFn : Bytes → Nat) (entries : List ModEntry) (w0 : World)
    (p : SyncProgress) (tx : Option EventChannel) :
    Except Str (SyncReport × World × SyncProgress × Option EventChannel) :=
  match run_entries hashFn entries w0 p tx with
  | (results, w1, p1, tx1) =>
    match tx1 with
    | some ch =>
      match chanSend ch (SyncEvent.finished (bucketResults results)) with
      | (Except.ok _, ch1) => Except.ok (bucketResults results, w1, p1, some ch1)
      | (Except.error _, _) => Except.error msgChannelClosed
    | none => Except.ok (bucketResults results, w1, p1, none)

/-- `ModManager::sync_all_from_entries`: ensure the mods folder exists
(creation failure is fatal to the run), then run the core. -/
def sync_all_from_entries (hashFn : Bytes → Nat) (entries : List ModEntry)
    (w : World) (p : SyncProgress) (tx : Option EventChannel) :
    Except Str (SyncReport × World × SyncProgress × Option EventChannel) :=
  if w.modsDirExists then syncCore hashFn entries w p tx
  else if w.mkdirOk then
    syncCore hashFn entries { w with modsDirExists := true } p tx
  else Except.error msgCreateDirFail

/-- State of the bounded fan-out executor built by
`stream::iter(entries).map(..).buffer_unordered(8)`: entries not yet
started, entries in flight, entries finished. -/
structure SchedState where
  pending : List ModEntry
  inFlight : List ModEntry
  done : List ModEntry
deriving DecidableEq, Repr

/-- One scheduler transition of `buffer_unordered(n)`: start the next
pending entry while fewer than `n` are in flight, or complete any in-flight
entry (completion order is arbitrary). -/
inductive SchedStep (n : Nat) : SchedState → SchedState → Prop
  | start (e : ModEntry) (rest fl dn : List ModEntry) :
      fl.length < n →
      SchedStep n ⟨e :: rest, fl, dn⟩ ⟨rest, e :: fl, dn⟩
  | finish (e : ModEntry) (fl1 fl2 pd dn : List ModEntry) :
      SchedStep n ⟨pd, fl1 ++ e :: fl2, dn⟩ ⟨pd, fl1 ++ fl2, e :: dn⟩

/-- Reachability under the scheduler's transitions. -/
def SchedReachable (n : Nat) : SchedState → SchedState → Prop :=
  Relation.ReflTransGen (SchedStep n)

/-- The executor's initial state for a manifest. -/
def initSched (entries : List ModEntry) : SchedState :=
  { pending := entries, inFlight := [], done := [] }

/-- Join of chunks with a separator, the left inverse of `splitSep`. -/
def joinSep (sep : Char) : List Str → Str
  | [] => []
  | p :: ps =>
    match ps with
    | [] => p
    | _ :: _ => p ++ sep :: joinSep sep ps

theorem joinSep_single (sep : Char) (p : Str) : joinSep sep [p] = p := rfl

theorem joinSep_cons_cons (sep : Char) (p q : Str) (ps : List Str) :
    joinSep sep (p :: q :: ps) = p ++ sep :: joinSep sep (q :: ps) := rfl

theorem splitSep_nil (sep : Char) : splitSep sep [] = [[]] := rfl

theorem splitSep_cons_sep (sep : Char) (c : Char) (rest : Str) (h : c = sep) :
    splitSep sep (c :: rest) = [] :: splitSep sep rest := by
  simp [splitSep, h]

theorem splitSep_ne_nil (sep : Char) (s : Str) : splitSep sep s ≠ [] := by
  cases s with
  | nil => simp [splitSep]
  | cons c rest =>
    by_cases h : c = sep
    · rw [splitSep_cons_sep sep c rest h]; simp
    · have hb : ¬((c == sep) = true) := by simpa using h
      simp only [splitSep, if_neg hb]
      cases hrec : splitSep sep rest <;> simp

theorem splitSep_cons_ne (sep : Char) (c : Char) (rest : Str) (h : ¬c = sep) :
    splitSep sep (c :: rest) =
      (c :: (splitSep sep rest).headI) :: (splitSep sep rest).tail := by
  have hb : ¬((c == sep) = true) := by simpa using h
  simp only [splitSep, if_neg hb]
  rcases hq : splitSep sep rest with _ | ⟨q, qs⟩
  · exact absurd hq (splitSep_ne_nil sep rest)
  · simp

theorem mem_splitSep_not_sep (sep : Char) (s : Str) :
    ∀ p ∈ splitSep sep s, sep ∉ p := by
  induction s with
  | nil =>
    intro p hp
    rw [splitSep_nil] at hp
    rcases List.mem_singleton.mp hp with h
    simp [h]
  | cons c rest ih =>
    intro p hp
    by_cases h : c = sep
    · rw [splitSep_cons_sep sep c rest h] at hp
      rcases List.mem_cons.mp hp with hp1 | hp1
      · simp [hp1]
      · exact ih p hp1
    · rw [splitSep_cons_ne sep c rest h] at hp
      rcases hq : splitSep sep rest with _ | ⟨q, qs⟩
      · exact absurd hq (splitSep_ne_nil sep rest)
      · rw [hq] at hp
        simp only [List.headI, List.tail] at hp
        rcases List.mem_cons.mp hp with hp1 | hp1
        · subst hp1
          intro hmem
          rcases List.mem_cons.mp hmem with hc | hc
          · exact h hc.symm
          · exact ih q (by rw [hq]; exact List.mem_cons_self q qs) hc
        · exact ih p (by rw [hq]; exact List.mem_cons_of_mem q hp1)

theorem splitSep_no_sep (sep : Char) (p : Str) (h : sep ∉ p) :
    splitSep sep p = [p] := by
  induction p with
  | nil => rfl
  | cons c rest ih =>
    have hc : ¬c = sep := fun hcs => h (by rw [hcs]; exact List.mem_cons_self _ _)
    have hrest : sep ∉ rest := fun hm => h (List.mem_cons_of_mem _ hm)
    rw [splitSep_cons_ne sep c rest hc, ih hrest]
    simp

theorem splitSep_append_sep (sep : Char) (p : Str) (h : sep ∉ p) (s : Str) :
    splitSep sep (p ++ sep :: s) = p :: splitSep sep s := by
  induction p with
  | nil => rw [List.nil_append, splitSep_cons_sep sep sep s rfl]
  | cons c rest ih =>
    have hc : ¬c = sep := fun hcs => h (by rw [hcs]; exact List.mem_cons_self _ _)
    have hrest : sep ∉ rest := fun hm => h (List.mem_cons_of_mem _ hm)
    rw [List.cons_append, splitSep_cons_ne sep c _ hc, ih hrest]
    simp

theorem joinSep_splitSep (sep : Char) (s : Str) :
    joinSep sep (splitSep sep s) = s := by
  induction s with
  | nil => rfl
  | cons c rest ih =>
    by_cases h : c = sep
    · rw [splitSep_cons_sep sep c rest h]
      rcases hq : splitSep sep rest with _ | ⟨q, qs⟩
      · exact absurd hq (splitSep_ne_nil sep rest)
      · rw [hq] at ih
        rw [joinSep_cons_cons, List.nil_append, ih, h]
    · rw [splitSep_cons_ne sep c rest h]
      rcases hq : splitSep sep rest with _ | ⟨q, qs⟩
      · exact absurd hq (splitSep_ne_nil sep rest)
      · rw [hq] at ih
        cases qs with
        | nil =>
          rw [joinSep_single] at ih
          simp only [List.headI, List.tail]
          rw [joinSep_single, ih]
        | cons q2 qs2 =>
          simp only [List.headI, List.tail]
          rw [joinSep_cons_cons, List.cons_append, ← joinSep_cons_cons, ih]

theorem head?_dropWhile_ws (l : Str) (c : Char)
    (h : (l.dropWhile isWs).head? = some c) : isWs c = false := by
  induction l with
  | nil => simp at h
  | cons a t ih =>
    by_cases ha : isWs a
    · rw [List.dropWhile_cons_of_pos ha] at h
      exact ih h
    · rw [List.dropWhile_cons_of_neg ha] at h
      simp only [List.head?_cons, Option.some.injEq] at h
      subst h
      exact Bool.not_eq_true _ ▸ (by simpa using ha)

theorem dropWhile_is_suffix (p : Char → Bool) (l : Str) :
    ∃ t, l = t ++ l.dropWhile p := by
  induction l with
  | nil => exact ⟨[], rfl⟩
  | cons a t ih =>
    by_cases ha : p a
    · rcases ih with ⟨u, hu⟩
      exact ⟨a :: u, by rw [List.dropWhile_cons_of_pos ha, List.cons_append, ← hu]⟩
    · exact ⟨[], by rw [List.dropWhile_cons_of_neg ha, List.nil_append]⟩

theorem trimStart_eq_self (s : Str)
    (h : ∀ c, s.head? = some c → isWs c = false) : trimStart s = s := by
  cases s with
  | nil => rfl
  | cons a t =>
    have := h a rfl
    exact List.dropWhile_cons_of_neg (by simp [this])

theorem trimEnd_eq_self (s : Str)
    (h : ∀ c, s.getLast? = some c → isWs c = false) : trimEnd s = s := by
  unfold trimEnd
  have hrev : s.reverse.dropWhile isWs = s.reverse := by
    cases hr : s.reverse with
    | nil => rfl
    | cons a t =>
      have ha : s.getLast? = some a := by
        rw [← List.head?_reverse, hr, List.head?_cons]
      have := h a ha
      exact List.dropWhile_cons_of_neg (by simp [this])
  rw [hrev, List.reverse_reverse]

theorem head?_trimStart_not_ws (s : Str) (c : Char)
    (h : (trimStart s).head? = some c) : isWs c = false :=
  head?_dropWhile_ws s c h

theorem getLast?_trimEnd_not_ws (s : Str) (c : Char)
    (h : (trimEnd s).getLast? = some c) : isWs c = false := by
  unfold trimEnd at h
  rw [List.getLast?_reverse] at h
  exact head?_dropWhile_ws _ c h

theorem head?_trimEnd (s : Str) (h : trimEnd s ≠ []) :
    (trimEnd s).head? = s.head? := by
  rcases dropWhile_is_suffix isWs s.reverse with ⟨t, ht⟩
  have hs : s = trimEnd s ++ t.reverse := by
    have := congrArg List.reverse ht
    rw [List.reverse_reverse, List.reverse_append] at this
    exact this
  conv_rhs => rw [hs]
  exact (List.head?_append_of_ne_nil _ h).symm

theorem head?_trim_not_ws (s : Str) (c : Char)
    (h : (trim s).head? = some c) : isWs c = false := by
  unfold trim at h
  have hne : trimEnd (trimStart s) ≠ [] := by
    intro hnil; rw [hnil] at h; simp at h
  rw [head?_trimEnd _ hne] at h
  exact head?_trimStart_not_ws s c h

theorem getLast?_trim_not_ws (s : Str) (c : Char)
    (h : (trim s).getLast? = some c) : isWs c = false :=
  getLast?_trimEnd_not_ws _ c h

theorem trim_eq_self (s : Str)
    (h1 : ∀ c, s.head? = some c → isWs c = false)
    (h2 : ∀ c, s.getLast? = some c → isWs c = false) : trim s = s := by
  unfold trim
  rw [trimStart_eq_self s h1, trimEnd_eq_self s h2]

theorem trim_idem (s : Str) : trim (trim s) = trim s :=
  trim_eq_self (trim s) (head?_trim_not_ws s) (getLast?_trim_not_ws s)

theorem parse_line_skip (line : Str)
    (h : (trim line).isEmpty = true ∨ (trim line).head? = some '#') :
    parse_line line = none := by
  simp only [parse_line]
  rcases h with h | h
  · simp [h]
  · simp [h]

theorem parse_line_short (line : Str)
    (h : (splitSep '|' (trim line)).length < 3) :
    parse_line line = none := by
  simp only [parse_line]
  by_cases hskip : ((trim line).isEmpty || ((trim line).head? == some '#')) = true
  · simp [hskip]
  · rw [if_neg hskip]
    have h2 : (splitSep '|' (trim line))[2]? = none :=
      List.getElem?_eq_none (by omega)
    rcases h0 : (splitSep '|' (trim line))[0]? with _ | a <;>
      rcases h1 : (splitSep '|' (trim line))[1]? with _ | b <;>
        simp [h0, h1, h2]

theorem parse_line_fields (line : Str) (cat fn url : Str) (rest : List Str)
    (hne : (trim line).isEmpty = false)
    (hhash : ¬(trim line).head? = some '#')
    (hsplit : splitSep '|' (trim line) = cat :: fn :: url :: rest) :
    parse_line line =
      some { filename := fn, url := url, sha256 := rest.head?, category := cat } := by
  simp only [parse_line]
  have hbeq : ((trim line).head? == some '#') = false := by
    simp [hhash]
  rw [hne, hbeq, hsplit]
  simp [List.head?_eq_getElem?]

theorem parse_line_inv (line : Str) (e : ModEntry) (h : parse_line line = some e) :
    (trim line).isEmpty = false ∧ (trim line).head? ≠ some '#' ∧
    ∃ rest, splitSep '|' (trim line) = e.category :: e.filename :: e.url :: rest ∧
      e.sha256 = rest.head? := by
  simp only [parse_line] at h
  by_cases hskip : ((trim line).isEmpty || ((trim line).head? == some '#')) = true
  · rw [if_pos hskip] at h; exact absurd h (by simp)
  · rw [if_neg hskip] at h
    have hor : ¬((trim line).isEmpty = true ∨ ((trim line).head? == some '#') = true) := by
      rw [← Bool.or_eq_true]; exact hskip
    have hne : (trim line).isEmpty = false := by
      rcases hb : (trim line).isEmpty with _ | _
      · rfl
      · exact absurd (Or.inl hb) hor
    have hhash : (trim line).head? ≠ some '#' := by
      intro hx
      exact hor (Or.inr (by simp [hx]))
    refine ⟨hne, hhash, ?_⟩
    rcases h0 : (splitSep '|' (trim line))[0]? with _ | cat
    · rw [h0] at h; exact absurd h (by simp)
    rcases h1 : (splitSep '|' (trim line))[1]? with _ | fn
    · rw [h0, h1] at h; exact absurd h (by simp)
    rcases h2 : (splitSep '|' (trim line))[2]? with _ | url
    · rw [h0, h1, h2] at h; exact absurd h (by simp)
    rw [h0, h1, h2] at h
    simp only [Option.some.injEq] at h
    rcases hp : splitSep '|' (trim line) with _ | ⟨a0, t0⟩
    · exact absurd hp (splitSep_ne_nil _ _)
    rcases t0 with _ | ⟨a1, t1⟩
    · rw [hp] at h1; simp at h1
    rcases t1 with _ | ⟨a2, t2⟩
    · rw [hp] at h2; simp at h2
    rw [hp] at h0 h1 h2
    simp only [List.getElem?_cons_zero, List.getElem?_cons_succ,
      Option.some.injEq] at h0 h1 h2
    refine ⟨t2, ?_, ?_⟩
    · rw [← h, h0, h1, h2]
    · rw [← h, hp]
      simp [List.head?_eq_getElem?]

/-- C5: the parser processes input text line by line; each line is trimmed;
empty lines and lines starting with the comment marker produce no entry; a
line splitting on the pipe into fewer than 3 fields is dropped without any
error; every other line produces exactly one entry taking category,
filename, url from the first three fields and the digest from the optional
fourth field; the output preserves input line order (it is the in-order
filterMap of the per-line parser). -/
theorem c5_parser_line_discipline (text line : Str) :
    ((trim line).isEmpty = true ∨ (trim line).head? = some '#' →
      parse_line line = none)
    ∧ ((splitSep '|' (trim line)).length < 3 → parse_line line = none)
    ∧ (∀ cat fn url rest,
        (trim line).isEmpty = false →
        (trim line).head? ≠ some '#' →
        splitSep '|' (trim line) = cat :: fn :: url :: rest →
        parse_line line =
          some { filename := fn, url := url, sha256 := rest.head?,
                 category := cat })
    ∧ load_mod_entries_text text = (linesOf text).filterMap parse_line :=
  ⟨parse_line_skip line, parse_line_short line,
   fun cat fn url rest hne hhash hsplit =>
     parse_line_fields line cat fn url rest hne hhash hsplit,
   rfl⟩

/-- Witness for C5 at a concrete manifest line with surrounding whitespace
and a digest field. -/
theorem c5_parser_line_discipline_witness :
    parse_line " REQUIRED|a.jar|http://x/a.jar|ABC ".toList =
      some { filename := "a.jar".toList, url := "http://x/a.jar".toList,
             sha256 := some "ABC".toList, category := "REQUIRED".toList } :=
  (c5_parser_line_discipline [] " REQUIRED|a.jar|http://x/a.jar|ABC ".toList).2.2.1
    "REQUIRED".toList "a.jar".toList "http://x/a.jar".toList ["ABC".toList]
    (by decide) (by decide) (by decide)

/-- The entry parsed from the C9 counterexample line: a five-field line
leaves trailing whitespace on the digest field. -/
def entC9 : ModEntry :=
  { filename := "b".toList, url := "c".toList, sha256 := some "d ".toList,
    category := "a".toList }

/-- C9 counterexample: the line `a|b|c|d |x` is accepted by the parser, but
serializing the resulting entry back to the pipe-delimited format and
parsing again trims the digest's trailing space, so the round trip does not
restore the entry's fields. -/
theorem c9_roundtrip_counterexample :
    parse_line "a|b|c|d |x".toList = some entC9 ∧
    parse_line (serialize_entry entC9) ≠ some entC9 := by
  constructor
  · decide
  · decide

/-- C9 amended: parse → serialize → parse restores the entry's fields for
every accepted line whose digest field (when present) carries no trailing
whitespace — equivalently, for all accepted lines except those with five or
more fields whose fourth field ends in whitespace. -/
theorem c9_roundtrip_amended (line : Str) (e : ModEntry)
    (hacc : parse_line line = some e)
    (hdg : ∀ d, e.sha256 = some d → trimEnd d = d) :
    parse_line (serialize_entry e) = some e := by
  obtain ⟨hne, hhash, rest, hsplit, hsha⟩ := parse_line_inv line e hacc
  have hcat : '|' ∉ e.category :=
    mem_splitSep_not_sep '|' (trim line) e.category (by rw [hsplit]; simp)
  have hfn : '|' ∉ e.filename :=
    mem_splitSep_not_sep '|' (trim line) e.filename (by rw [hsplit]; simp)
  have hurl : '|' ∉ e.url :=
    mem_splitSep_not_sep '|' (trim line) e.url (by rw [hsplit]; simp)
  have hjoin := joinSep_splitSep '|' (trim line)
  rw [hsplit] at hjoin
  cases rest with
  | nil =>
    have hnone : e.sha256 = none := by rw [hsha]; rfl
    have hser : serialize_entry e =
        e.category ++ '|' :: (e.filename ++ '|' :: e.url) := by
      simp [serialize_entry, hnone]
    have hLeq : trim line = e.category ++ '|' :: (e.filename ++ '|' :: e.url) := by
      rw [← hjoin, joinSep_cons_cons, joinSep_cons_cons, joinSep_single]
    have h3 := parse_line_fields (trim line) e.category e.filename e.url []
      (by rw [trim_idem]; exact hne)
      (by rw [trim_idem]; exact hhash)
      (by rw [trim_idem]; exact hsplit)
    rw [hser, ← hLeq, h3, ← hsha]
  | cons d rest2 =>
    have hsome : e.sha256 = some d := by rw [hsha]; rfl
    have hd : trimEnd d = d := hdg d hsome
    have hdsep : '|' ∉ d :=
      mem_splitSep_not_sep '|' (trim line) d (by rw [hsplit]; simp)
    have hser : serialize_entry e =
        e.category ++ '|' :: (e.filename ++ '|' :: (e.url ++ '|' :: d)) := by
      simp [serialize_entry, hsome]
    have hsplitS : splitSep '|' (serialize_entry e) =
        e.category :: e.filename :: e.url :: [d] := by
      rw [hser, splitSep_append_sep '|' _ hcat, splitSep_append_sep '|' _ hfn,
        splitSep_append_sep '|' _ hurl, splitSep_no_sep '|' d hdsep]
    have hheadS : ∀ c, (serialize_entry e).head? = some c →
        isWs c = false ∧ c ≠ '#' := by
      intro c hc
      rcases hcat0 : e.category with _ | ⟨c0, ct⟩
      · rw [hser, hcat0, List.nil_append, List.head?_cons] at hc
        injection hc with hc
        subst hc
        exact ⟨by decide, by decide⟩
      · rw [hser, hcat0,
          List.head?_append_of_ne_nil _ (List.cons_ne_nil _ _),
          List.head?_cons] at hc
        injection hc with hc
        have hLhead : (trim line).head? = some c := by
          rw [← hc, ← hjoin, joinSep_cons_cons, hcat0,
            List.head?_append_of_ne_nil _ (List.cons_ne_nil _ _),
            List.head?_cons]
        refine ⟨head?_trim_not_ws line c hLhead, fun hch => hhash ?_⟩
        rw [hLhead, hch]
    have hlastS : ∀ c, (serialize_entry e).getLast? = some c →
        isWs c = false := by
      intro c hc
      have hassoc : serialize_entry e =
          (e.category ++ '|' :: (e.filename ++ '|' :: e.url)) ++ '|' :: d := by
        rw [hser]; simp [List.append_assoc]
      rw [hassoc, List.getLast?_append_of_ne_nil _ (List.cons_ne_nil _ _)] at hc
      rcases hd0 : d with _ | ⟨d0, dt⟩
      · rw [hd0] at hc
        simp only [List.getLast?_singleton, Option.some.injEq] at hc
        subst hc
        decide
      · rw [hd0] at hc
        have hstep : ('|' :: d0 :: dt).getLast? = (d0 :: dt).getLast? := by
          have h4 := @List.getLast?_append_of_ne_nil Char ['|'] (d0 :: dt)
            (List.cons_ne_nil d0 dt)
          simp only [List.singleton_append] at h4
          exact h4
        rw [hstep] at hc
        have hdlast : (trimEnd d).getLast? = some c := by rw [hd, hd0]; exact hc
        exact getLast?_trimEnd_not_ws d c hdlast
    have htrimS : trim (serialize_entry e) = serialize_entry e :=
      trim_eq_self _ (fun c hc => (hheadS c hc).1) hlastS
    have hSisEmpty : (serialize_entry e).isEmpty = false := by
      rcases hS : serialize_entry e with _ | ⟨sc, st⟩
      · rw [hS] at hsplitS
        rw [splitSep_nil] at hsplitS
        simp at hsplitS
      · rfl
    have hSheadne : (serialize_entry e).head? ≠ some '#' := by
      intro hx
      exact absurd rfl (hheadS '#' hx).2
    have h3 := parse_line_fields (serialize_entry e) e.category e.filename e.url [d]
      (by rw [htrimS]; exact hSisEmpty)
      (by rw [htrimS]; exact hSheadne)
      (by rw [htrimS]; exact hsplitS)
    rw [h3]
    simp only [List.head?_cons]
    rw [← hsome]

/-- Witness for the amended C9 at a four-field line whose digest has no
trailing whitespace. -/
theorem c9_roundtrip_amended_witness :
    parse_line (serialize_entry ⟨"b".toList, "c".toList, some "d".toList,
      "a".toList⟩) =
      some ⟨"b".toList, "c".toList, some "d".toList, "a".toList⟩ :=
  c9_roundtrip_amended "a|b|c|d".toList
    ⟨"b".toList, "c".toList, some "d".toList, "a".toList⟩ (by decide)
    (fun d hd => by
      injection hd with h2
      rw [← h2]
      decide)

theorem handleEntryCore_counts (hashFn : Bytes → Nat) (e : ModEntry) (w : World)
    (p : SyncProgress) (tx : Option EventChannel) :
    (handleEntryCore hashFn e w p tx).2.2.1.processed = p.processed ∧
    (handleEntryCore hashFn e w p tx).2.2.1.processedSum = p.processedSum + 1 := by
  unfold handleEntryCore
  split
  · split
    · split <;> exact ⟨rfl, by simp [SyncProgress.processedSum]; omega⟩
    · exact ⟨rfl, by simp [SyncProgress.processedSum]; omega⟩
  · split <;> exact ⟨rfl, by simp [SyncProgress.processedSum]; omega⟩

theorem handle_entry_counts (hashFn : Bytes → Nat) (e : ModEntry) (w : World)
    (p : SyncProgress) (tx : Option EventChannel) :
    (handle_entry hashFn e w p tx).2.2.1.processed = p.processed + 1 ∧
    (handle_entry hashFn e w p tx).2.2.1.processedSum = p.processedSum + 1 := by
  unfold handle_entry
  have h := handleEntryCore_counts hashFn e w p tx
  rcases hcore : handleEntryCore hashFn e w p tx with ⟨r, w1, p1, tx1⟩
  rw [hcore] at h
  simp only [hcore]
  simp [SyncProgress.set_last_mod, SyncProgress.processedSum] at h ⊢
  omega

theorem run_entries_counts (hashFn : Bytes → Nat) (entries : List ModEntry) :
    ∀ (w : World) (p : SyncProgress) (tx : Option EventChannel),
    (run_entries hashFn entries w p tx).1.length = entries.length ∧
    (run_entries hashFn entries w p tx).2.2.1.processed =
      p.processed + entries.length ∧
    (run_entries hashFn entries w p tx).2.2.1.processedSum =
      p.processedSum + entries.length := by
  induction entries with
  | nil => intro w p tx; exact ⟨rfl, rfl, rfl⟩
  | cons e rest ih =>
    intro w p tx
    unfold run_entries
    have h1 := handle_entry_counts hashFn e w p tx
    rcases hhe : handle_entry hashFn e w p tx with ⟨r, w1, p1, tx1⟩
    rw [hhe] at h1
    have h2 := ih w1 p1 tx1
    rcases hrun : run_entries hashFn rest w1 p1 tx1 with ⟨rs, w2, p2, tx2⟩
    rw [hrun] at h2
    simp only [hhe, hrun]
    simp at h1 h2 ⊢
    omega

theorem bucketResults_sum (rs : List EntryResult) :
    (bucketResults rs).downloaded.length + (bucketResults rs).unchanged.length +
    (bucketResults rs).removed.length + (bucketResults rs).failed.length =
    rs.length := by
  induction rs with
  | nil => rfl
  | cons r rs ih =>
    unfold bucketResults
    cases r <;> simp <;> omega

theorem syncCore_ok_inv (hashFn : Bytes → Nat) (entries : List ModEntry)
    (w0 : World) (p : SyncProgress) (tx : Option EventChannel)
    (out : SyncReport × World × SyncProgress × Option EventChannel)
    (h : syncCore hashFn entries w0 p tx = Except.ok out) :
    out.1 = bucketResults (run_entries hashFn entries w0 p tx).1 ∧
      out.2.2.1 = (run_entries hashFn entries w0 p tx).2.2.1 := by
  unfold syncCore at h
  split at h
  rename_i rs w2 p2 txx heq
  rw [heq]
  split at h
  · split at h
    · rw [Except.ok.injEq] at h
      rw [← h]
      exact ⟨rfl, rfl⟩
    · exact absurd h (by simp)
  · rw [Except.ok.injEq] at h
    rw [← h]
    exact ⟨rfl, rfl⟩

theorem sync_ok_inv (hashFn : Bytes → Nat) (entries : List ModEntry) (w : World)
    (p : SyncProgress) (tx : Option EventChannel)
    (out : SyncReport × World × SyncProgress × Option EventChannel)
    (h : sync_all_from_entries hashFn entries w p tx = Except.ok out) :
    ∃ w0, out.1 = bucketResults (run_entries hashFn entries w0 p tx).1 ∧
      out.2.2.1 = (run_entries hashFn entries w0 p tx).2.2.1 := by
  unfold sync_all_from_entries at h
  split at h
  · exact ⟨w, syncCore_ok_inv hashFn entries w p tx out h⟩
  · split at h
    · exact ⟨{ w with modsDirExists := true },
        syncCore_ok_inv hashFn entries _ p tx out h⟩
    · exact absurd h (by simp)

/-- C1: after a completed run over any manifest of N entries, the four
buckets of the returned report partition the entries — their lengths sum to
N — and the progress tracker's processed count equals N (both the
`processed` field and the `processed()` method, the sum of the four outcome
counters). -/
theorem c1_report_partition (hashFn : Bytes → Nat) (entries : List ModEntry)
    (w : World) (tx : Option EventChannel)
    (out : SyncReport × World × SyncProgress × Option EventChannel)
    (h : sync_all_from_entries hashFn entries w (SyncProgress.new entries.length) tx
      = Except.ok out) :
    out.1.downloaded.length + out.1.unchanged.length + out.1.removed.length +
      out.1.failed.length = entries.length ∧
    out.2.2.1.processed = entries.length ∧
    out.2.2.1.processedSum = entries.length := by
  obtain ⟨w0, hrep, hprog⟩ :=
    sync_ok_inv hashFn entries w (SyncProgress.new entries.length) tx out h
  have hc := run_entries_counts hashFn entries w0 (SyncProgress.new entries.length) tx
  refine ⟨?_, ?_, ?_⟩
  · rw [hrep, bucketResults_sum, hc.1]
  · rw [hprog, hc.2.1]
    simp [SyncProgress.new]
  · rw [hprog, hc.2.2]
    simp [SyncProgress.new, SyncProgress.processedSum]

/-- A concrete stand-in for the abstract SHA-256 compression, used only to
instantiate witnesses. -/
def hashLen : Bytes → Nat := fun b => b.length

/-- A file name used by the concrete witnesses. -/
def fileA : Str := "old.jar".toList

/-- A concrete world whose mods folder contains `old.jar` and in which no
standard-library call fails. -/
def wPresent : World :=
  { fs := fun q => if q = fileA then some [1, 2, 3] else none,
    fetch := fun _ => Except.error NetErr.sendFail,
    writeFails := fun _ => false,
    removeErr := fun _ => none,
    readFails := fun _ => false,
    modsDirExists := true,
    mkdirOk := true }

/-- The tuple returned by the empty-manifest run of the C1 witness. -/
def outC1 : SyncReport × World × SyncProgress × Option EventChannel :=
  ({ downloaded := [], unchanged := [], removed := [], failed := [] },
   wPresent, SyncProgress.new 0, none)

/-- Witness for C1 at the empty manifest. -/
theorem c1_report_partition_witness :
    outC1.1.downloaded.length + outC1.1.unchanged.length +
      outC1.1.removed.length + outC1.1.failed.length =
      ([] : List ModEntry).length ∧
    outC1.2.2.1.processed = ([] : List ModEntry).length ∧
    outC1.2.2.1.processedSum = ([] : List ModEntry).length :=
  c1_report_partition hashLen [] wPresent none outC1 rfl

theorem handle_entry_remove_absent (hashFn : Bytes → Nat) (e : ModEntry)
    (w : World) (p : SyncProgress) (tx : Option EventChannel)
    (hrem : isRemoveCategory e = true) (hfs : w.fs e.filename = none) :
    handle_entry hashFn e w p tx =
      (EntryResult.unchanged e, w,
       { p with
          unchanged := p.unchanged + 1
          processed := p.processed + 1
          last_mod := some e.filename },
       send_event tx (SyncEvent.unchangedEv e.filename)) := by
  unfold handle_entry handleEntryCore
  rw [hrem, hfs]
  simp [SyncProgress.set_last_mod]

theorem handle_entry_remove_delete (hashFn : Bytes → Nat) (e : ModEntry)
    (w : World) (p : SyncProgress) (tx : Option EventChannel)
    (hrem : isRemoveCategory e = true) (hfs : (w.fs e.filename).isSome = true)
    (hrm : w.removeErr e.filename = none) :
    handle_entry hashFn e w p tx =
      (EntryResult.removed e,
       { w with fs := fun q => if q = e.filename then none else w.fs q },
       { p with
          removed := p.removed + 1
          processed := p.processed + 1
          last_mod := some e.filename },
       send_event tx (SyncEvent.removedEv e.filename)) := by
  unfold handle_entry handleEntryCore
  rw [hrem, hfs, hrm]
  simp [SyncProgress.set_last_mod]

theorem handle_entry_remove_error (hashFn : Bytes → Nat) (e : ModEntry)
    (w : World) (p : SyncProgress) (tx : Option EventChannel) (msg : Str)
    (hrem : isRemoveCategory e = true) (hfs : (w.fs e.filename).isSome = true)
    (hrm : w.removeErr e.filename = some msg) :
    handle_entry hashFn e w p tx =
      (EntryResult.failed e msg, w,
       { p with
          failed := p.failed + 1
          processed := p.processed + 1
          last_mod := some e.filename },
       send_event tx (SyncEvent.failedEv e.filename msg)) := by
  unfold handle_entry handleEntryCore
  rw [hrem, hfs, hrm]
  simp [SyncProgress.set_last_mod]

/-- C2: for an entry whose category case-insensitively equals REMOVE, the
resolver yields Unchanged when the local file is absent, Removed (with the
file deleted) when it exists and deletion succeeds, and Failed with the
delete error message when deletion fails; the entry's url and digest fields
have no effect in this branch. -/
theorem c2_remove_branch (hashFn : Bytes → Nat) (e : ModEntry) (w : World)
    (p : SyncProgress) (tx : Option EventChannel)
    (hrem : isRemoveCategory e = true) :
    (w.fs e.filename = none →
      handle_entry hashFn e w p tx =
        (EntryResult.unchanged e, w,
         { p with
            unchanged := p.unchanged + 1
            processed := p.processed + 1
            last_mod := some e.filename },
         send_event tx (SyncEvent.unchangedEv e.filename)))
    ∧ (∀ data, w.fs e.filename = some data → w.removeErr e.filename = none →
        (handle_entry hashFn e w p tx).1 = EntryResult.removed e ∧
        (handle_entry hashFn e w p tx).2.1.fs e.filename = none)
    ∧ (∀ data msg, w.fs e.filename = some data →
        w.removeErr e.filename = some msg →
        handle_entry hashFn e w p tx =
          (EntryResult.failed e msg, w,
           { p with
              failed := p.failed + 1
              processed := p.processed + 1
              last_mod := some e.filename },
           send_event tx (SyncEvent.failedEv e.filename msg)))
    ∧ (∀ u dg,
        (handle_entry hashFn { e with url := u, sha256 := dg } w p tx).1.kind =
          (handle_entry hashFn e w p tx).1.kind ∧
        (handle_entry hashFn { e with url := u, sha256 := dg } w p tx).1.message? =
          (handle_entry hashFn e w p tx).1.message? ∧
        (handle_entry hashFn { e with url := u, sha256 := dg } w p tx).2 =
          (handle_entry hashFn e w p tx).2) := by
  refine ⟨?_, ?_, ?_, ?_⟩
  · intro hfs
    exact handle_entry_remove_absent hashFn e w p tx hrem hfs
  · intro data hfs hrm
    have hfs2 : (w.fs e.filename).isSome = true := by rw [hfs]; rfl
    rw [handle_entry_remove_delete hashFn e w p tx hrem hfs2 hrm]
    exact ⟨rfl, by simp⟩
  · intro data msg hfs hrm
    have hfs2 : (w.fs e.filename).isSome = true := by rw [hfs]; rfl
    exact handle_entry_remove_error hashFn e w p tx msg hrem hfs2 hrm
  · intro u dg
    have hrem2 : isRemoveCategory { e with url := u, sha256 := dg } = true := hrem
    rcases hfs : w.fs e.filename with _ | data
    · rw [handle_entry_remove_absent hashFn { e with url := u, sha256 := dg }
        w p tx hrem2 hfs, handle_entry_remove_absent hashFn e w p tx hrem hfs]
      exact ⟨rfl, rfl, rfl⟩
    · have hfs2 : (w.fs e.filename).isSome = true := by rw [hfs]; rfl
      rcases hrm : w.removeErr e.filename with _ | msg
      · rw [handle_entry_remove_delete hashFn { e with url := u, sha256 := dg }
          w p tx hrem2 hfs2 hrm, handle_entry_remove_delete hashFn e w p tx hrem hfs2 hrm]
        exact ⟨rfl, rfl, rfl⟩
      · rw [handle_entry_remove_error hashFn { e with url := u, sha256 := dg }
          w p tx msg hrem2 hfs2 hrm,
          handle_entry_remove_error hashFn e w p tx msg hrem hfs2 hrm]
        exact ⟨rfl, rfl, rfl⟩

/-- The concrete REMOVE entry (mixed-case category) of the C2 witness. -/
def entC2 : ModEntry :=
  { filename := fileA, url := "http://u".toList, sha256 := none,
    category := "ReMoVe".toList }

/-- Witness for C2: deleting a present `old.jar` via a mixed-case REMOVE
entry yields outcome Removed and removes the file. -/
theorem c2_remove_branch_witness :
    (handle_entry hashLen entC2 wPresent (SyncProgress.new 1) none).1 =
      EntryResult.removed entC2 ∧
    (handle_entry hashLen entC2 wPresent (SyncProgress.new 1) none).2.1.fs
      entC2.filename = none :=
  (c2_remove_branch hashLen entC2 wPresent (SyncProgress.new 1) none
    (by decide)).2.1 [1, 2, 3] (by decide) rfl

theorem cad_exists_nodigest (hashFn : Bytes → Nat) (w : World) (e : ModEntry)
    (hfs : (w.fs e.filename).isSome = true) (hsha : e.sha256 = none) :
    check_and_download hashFn w e = (Except.ok false, w) := by
  simp [check_and_download, hfs, hsha]

theorem cad_exists_readfail (hashFn : Bytes → Nat) (w : World) (e : ModEntry)
    (expected : Str) (hfs : (w.fs e.filename).isSome = true)
    (hsha : e.sha256 = some expected) (hread : w.readFails e.filename = true) :
    check_and_download hashFn w e = (Except.error msgReadHashFail, w) := by
  simp [check_and_download, sha256_file, hfs, hsha, hread]

theorem cad_exists_match (hashFn : Bytes → Nat) (w : World) (e : ModEntry)
    (data : Bytes) (expected : Str)
    (hfs : w.fs e.filename = some data) (hsha : e.sha256 = some expected)
    (hread : w.readFails e.filename = false)
    (heq : eqIgnoreAsciiCase (toHex64 (hashFn data)) expected = true) :
    check_and_download hashFn w e = (Except.ok false, w) := by
  simp [check_and_download, sha256_file, hfs, hsha, hread, heq]

theorem cad_exists_mismatch (hashFn : Bytes → Nat) (w : World) (e : ModEntry)
    (data : Bytes) (expected : Str)
    (hfs : w.fs e.filename = some data) (hsha : e.sha256 = some expected)
    (hread : w.readFails e.filename = false)
    (heq : eqIgnoreAsciiCase (toHex64 (hashFn data)) expected = false) :
    check_and_download hashFn w e =
      (Except.error (msgMismatch e.filename expected (toHex64 (hashFn data))), w) := by
  simp [check_and_download, sha256_file, hfs, hsha, hread, heq]

theorem handle_entry_cad_ok_true (hashFn : Bytes → Nat) (e : ModEntry)
    (w : World) (p : SyncProgress) (tx : Option EventChannel) (w1 : World)
    (hnr : isRemoveCategory e = false)
    (hcd : check_and_download hashFn w e = (Except.ok true, w1)) :
    handle_entry hashFn e w p tx =
      (EntryResult.downloaded e, w1,
       { p with
          downloaded := p.downloaded + 1
          processed := p.processed + 1
          last_mod := some e.filename },
       send_event tx (SyncEvent.downloadedEv e.filename)) := by
  unfold handle_entry handleEntryCore
  rw [hnr, hcd]
  simp [SyncProgress.set_last_mod]

theorem handle_entry_cad_ok_false (hashFn : Bytes → Nat) (e : ModEntry)
    (w : World) (p : SyncProgress) (tx : Option EventChannel) (w1 : World)
    (hnr : isRemoveCategory e = false)
    (hcd : check_and_download hashFn w e = (Except.ok false, w1)) :
    handle_entry hashFn e w p tx =
      (EntryResult.unchanged e, w1,
       { p with
          unchanged := p.unchanged + 1
          processed := p.processed + 1
          last_mod := some e.filename },
       send_event tx (SyncEvent.unchangedEv e.filename)) := by
  unfold handle_entry handleEntryCore
  rw [hnr, hcd]
  simp [SyncProgress.set_last_mod]

theorem handle_entry_cad_error (hashFn : Bytes → Nat) (e : ModEntry)
    (w : World) (p : SyncProgress) (tx : Option EventChannel) (w1 : World)
    (m : Str) (hnr : isRemoveCategory e = false)
    (hcd : check_and_download hashFn w e = (Except.error m, w1)) :
    handle_entry hashFn e w p tx =
      (EntryResult.failed e m, w1,
       { p with
          failed := p.failed + 1
          processed := p.processed + 1
          last_mod := some e.filename },
       send_event tx (SyncEvent.failedEv e.filename m)) := by
  unfold handle_entry handleEntryCore
  rw [hnr, hcd]
  simp [SyncProgress.set_last_mod]

/-- C3: for a non-REMOVE entry whose local file exists: with no expected
digest the outcome is Unchanged and no content verification happens (any
contents and even a failing read oracle give the same result, and the world
is untouched); with a digest whose case-insensitive comparison succeeds the
outcome is Unchanged; with a mismatched digest the outcome is Failed with
the message naming the expected and actual digests, and the local file is
left untouched and not re-downloaded (the world is returned unchanged). -/
theorem c3_exists_branch (hashFn : Bytes → Nat) (e : ModEntry) (w : World)
    (p : SyncProgress) (tx : Option EventChannel) (data : Bytes)
    (hnr : isRemoveCategory e = false)
    (hfs : w.fs e.filename = some data) :
    (e.sha256 = none →
      handle_entry hashFn e w p tx =
        (EntryResult.unchanged e, w,
         { p with
            unchanged := p.unchanged + 1
            processed := p.processed + 1
            last_mod := some e.filename },
         send_event tx (SyncEvent.unchangedEv e.filename)))
    ∧ (∀ expected, e.sha256 = some expected →
        w.readFails e.filename = false →
        eqIgnoreAsciiCase (toHex64 (hashFn data)) expected = true →
        handle_entry hashFn e w p tx =
          (EntryResult.unchanged e, w,
           { p with
              unchanged := p.unchanged + 1
              processed := p.processed + 1
              last_mod := some e.filename },
           send_event tx (SyncEvent.unchangedEv e.filename)))
    ∧ (∀ expected, e.sha256 = some expected →
        w.readFails e.filename = false →
        eqIgnoreAsciiCase (toHex64 (hashFn data)) expected = false →
        handle_entry hashFn e w p tx =
          (EntryResult.failed e
             (msgMismatch e.filename expected (toHex64 (hashFn data))), w,
           { p with
              failed := p.failed + 1
              processed := p.processed + 1
              last_mod := some e.filename },
           send_event tx (SyncEvent.failedEv e.filename
             (msgMismatch e.filename expected (toHex64 (hashFn data)))))) := by
  have hfs2 : (w.fs e.filename).isSome = true := by rw [hfs]; rfl
  refine ⟨?_, ?_, ?_⟩
  · intro hsha
    exact handle_entry_cad_ok_false hashFn e w p tx w hnr
      (cad_exists_nodigest hashFn w e hfs2 hsha)
  · intro expected hsha hread heq
    exact handle_entry_cad_ok_false hashFn e w p tx w hnr
      (cad_exists_match hashFn w e data expected hfs hsha hread heq)
  · intro expected hsha hread heq
    exact handle_entry_cad_error hashFn e w p tx w _ hnr
      (cad_exists_mismatch hashFn w e data expected hfs hsha hread heq)

/-- The entry of the C3 witness: file present, digest that matches. -/
def entC3 : ModEntry :=
  { filename := fileA, url := "http://u3".toList,
    sha256 := some (toHex64 3), category := "REQUIRED".toList }

/-- Witness for C3: a present file whose digest matches yields Unchanged. -/
theorem c3_exists_branch_witness :
    handle_entry hashLen entC3 wPresent (SyncProgress.new 1) none =
      (EntryResult.unchanged entC3, wPresent,
       { SyncProgress.new 1 with
          unchanged := (SyncProgress.new 1).unchanged + 1
          processed := (SyncProgress.new 1).processed + 1
          last_mod := some entC3.filename },
       send_event none (SyncEvent.unchangedEv entC3.filename)) :=
  (c3_exists_branch hashLen entC3 wPresent (SyncProgress.new 1) none [1, 2, 3]
    (by decide) (by decide)).2.1 (toHex64 3) rfl rfl (by decide)

theorem dm_send_fail (hashFn : Bytes → Nat) (w : World) (e : ModEntry)
    (hfetch : w.fetch e.url = Except.error NetErr.sendFail) :
    download_mod hashFn w e = (Except.error (msgFailedDownload e.filename), w) := by
  simp [download_mod, hfetch]

theorem dm_read_fail (hashFn : Bytes → Nat) (w : World) (e : ModEntry)
    (hfetch : w.fetch e.url = Except.error NetErr.readFail) :
    download_mod hashFn w e = (Except.error (msgFailedReadResp e.filename), w) := by
  simp [download_mod, hfetch]

theorem dm_write_fail (hashFn : Bytes → Nat) (w : World) (e : ModEntry)
    (bytes : Bytes) (hfetch : w.fetch e.url = Except.ok bytes)
    (hw : w.writeFails e.filename = true) :
    download_mod hashFn w e = (Except.error (msgFailedWrite e.filename), w) := by
  simp [download_mod, hfetch, hw]

theorem dm_ok (hashFn : Bytes → Nat) (w : World) (e : ModEntry) (bytes : Bytes)
    (hfetch : w.fetch e.url = Except.ok bytes)
    (hw : w.writeFails e.filename = false)
    (hok : e.sha256 = none ∨ (∃ expected, e.sha256 = some expected ∧
      w.readFails e.filename = false ∧
      eqIgnoreAsciiCase (toHex64 (hashFn bytes)) expected = true)) :
    download_mod hashFn w e =
      (Except.ok (),
       { w with fs := fun q => if q = e.filename then some bytes else w.fs q }) := by
  rcases hok with hnone | ⟨expected, hsha, hread, heq⟩
  · simp [download_mod, hfetch, hw, hnone]
  · simp [download_mod, sha256_file, hfetch, hw, hsha, hread, heq]

theorem dm_post_mismatch (hashFn : Bytes → Nat) (w : World) (e : ModEntry)
    (bytes : Bytes) (expected : Str)
    (hfetch : w.fetch e.url = Except.ok bytes)
    (hw : w.writeFails e.filename = false)
    (hsha : e.sha256 = some expected)
    (hread : w.readFails e.filename = false)
    (heq : eqIgnoreAsciiCase (toHex64 (hashFn bytes)) expected = false) :
    download_mod hashFn w e =
      (Except.error (msgMismatch e.filename expected (toHex64 (hashFn bytes))),
       { w with fs := fun q => if q = e.filename then some bytes else w.fs q }) := by
  simp [download_mod, sha256_file, hfetch, hw, hsha, hread, heq]

theorem cad_absent_ok (hashFn : Bytes → Nat) (w : World) (e : ModEntry)
    (w1 : World) (hfs : w.fs e.filename = none)
    (hdm : download_mod hashFn w e = (Except.ok (), w1)) :
    check_and_download hashFn w e = (Except.ok true, w1) := by
  simp [check_and_download, hfs, hdm]

theorem cad_absent_error (hashFn : Bytes → Nat) (w : World) (e : ModEntry)
    (w1 : World) (m : Str) (hfs : w.fs e.filename = none)
    (hdm : download_mod hashFn w e = (Except.error m, w1)) :
    check_and_download hashFn w e = (Except.error m, w1) := by
  simp [check_and_download, hfs, hdm]

/-- C4: for a non-REMOVE entry whose local file does not exist: a failure of
either fetch stage yields Failed with the respective network error message
and no file is written; a write failure yields Failed with the I/O error
message; when an expected digest is given and the recomputed digest of the
freshly written file mismatches, the outcome is Failed while the written
file remains on disk (no rollback); otherwise the outcome is Downloaded and
the file on disk holds exactly the fetched bytes. -/
theorem c4_absent_branch (hashFn : Bytes → Nat) (e : ModEntry) (w : World)
    (p : SyncProgress) (tx : Option EventChannel)
    (hnr : isRemoveCategory e = false)
    (hfs : w.fs e.filename = none) :
    (w.fetch e.url = Except.error NetErr.sendFail →
      handle_entry hashFn e w p tx =
        (EntryResult.failed e (msgFailedDownload e.filename), w,
         { p with
            failed := p.failed + 1
            processed := p.processed + 1
            last_mod := some e.filename },
         send_event tx (SyncEvent.failedEv e.filename
           (msgFailedDownload e.filename))) ∧
      (handle_entry hashFn e w p tx).2.1.fs e.filename = none)
    ∧ (w.fetch e.url = Except.error NetErr.readFail →
        handle_entry hashFn e w p tx =
          (EntryResult.failed e (msgFailedReadResp e.filename), w,
           { p with
              failed := p.failed + 1
              processed := p.processed + 1
              last_mod := some e.filename },
           send_event tx (SyncEvent.failedEv e.filename
             (msgFailedReadResp e.filename))) ∧
        (handle_entry hashFn e w p tx).2.1.fs e.filename = none)
    ∧ (∀ bytes, w.fetch e.url = Except.ok bytes →
        w.writeFails e.filename = true →
        handle_entry hashFn e w p tx =
          (EntryResult.failed e (msgFailedWrite e.filename), w,
           { p with
              failed := p.failed + 1
              processed := p.processed + 1
              last_mod := some e.filename },
           send_event tx (SyncEvent.failedEv e.filename
             (msgFailedWrite e.filename))) ∧
        (handle_entry hashFn e w p tx).2.1.fs e.filename = none)
    ∧ (∀ bytes expected, w.fetch e.url = Except.ok bytes →
        w.writeFails e.filename = false →
        e.sha256 = some expected →
        w.readFails e.filename = false →
        eqIgnoreAsciiCase (toHex64 (hashFn bytes)) expected = false →
        (handle_entry hashFn e w p tx).1 =
          EntryResult.failed e
            (msgMismatch e.filename expected (toHex64 (hashFn bytes))) ∧
        (handle_entry hashFn e w p tx).2.1.fs e.filename = some bytes)
    ∧ (∀ bytes, w.fetch e.url = Except.ok bytes →
        w.writeFails e.filename = false →
        (e.sha256 = none ∨ (∃ expected, e.sha256 = some expected ∧
          w.readFails e.filename = false ∧
          eqIgnoreAsciiCase (toHex64 (hashFn bytes)) expected = true)) →
        (handle_entry hashFn e w p tx).1 = EntryResult.downloaded e ∧
        (handle_entry hashFn e w p tx).2.1.fs e.filename = some bytes) := by
  refine ⟨?_, ?_, ?_, ?_, ?_⟩
  · intro hfetch
    have hhe := handle_entry_cad_error hashFn e w p tx w _ hnr
      (cad_absent_error hashFn w e w _ hfs (dm_send_fail hashFn w e hfetch))
    exact ⟨hhe, by rw [hhe]; exact hfs⟩
  · intro hfetch
    have hhe := handle_entry_cad_error hashFn e w p tx w _ hnr
      (cad_absent_error hashFn w e w _ hfs (dm_read_fail hashFn w e hfetch))
    exact ⟨hhe, by rw [hhe]; exact hfs⟩
  · intro bytes hfetch hw
    have hhe := handle_entry_cad_error hashFn e w p tx w _ hnr
      (cad_absent_error hashFn w e w _ hfs (dm_write_fail hashFn w e bytes hfetch hw))
    exact ⟨hhe, by rw [hhe]; exact hfs⟩
  · intro bytes expected hfetch hw hsha hread heq
    have hhe := handle_entry_cad_error hashFn e w p tx _ _ hnr
      (cad_absent_error hashFn w e _ _ hfs
        (dm_post_mismatch hashFn w e bytes expected hfetch hw hsha hread heq))
    rw [hhe]
    exact ⟨rfl, by simp⟩
  · intro bytes hfetch hw hok
    have hhe := handle_entry_cad_ok_true hashFn e w p tx _ hnr
      (cad_absent_ok hashFn w e _ hfs (dm_ok hashFn w e bytes hfetch hw hok))
    rw [hhe]
    exact ⟨rfl, by simp⟩

/-- The file name of the C4 witness. -/
def fileB : Str := "new.jar".toList

/-- A concrete world with an empty mods folder and a working network. -/
def wAbsent : World :=
  { fs := fun _ => none,
    fetch := fun u => if u = "http://b".toList then Except.ok [7, 7]
      else Except.error NetErr.sendFail,
    writeFails := fun _ => false,
    removeErr := fun _ => none,
    readFails := fun _ => false,
    modsDirExists := true,
    mkdirOk := true }

/-- The entry of the C4 witness: absent file, no expected digest. -/
def entC4 : ModEntry :=
  { filename := fileB, url := "http://b".toList, sha256 := none,
    category := "REQUIRED".toList }

/-- Witness for C4: downloading a missing file stores the fetched bytes and
yields Downloaded. -/
theorem c4_absent_branch_witness :
    (handle_entry hashLen entC4 wAbsent (SyncProgress.new 1) none).1 =
      EntryResult.downloaded entC4 ∧
    (handle_entry hashLen entC4 wAbsent (SyncProgress.new 1) none).2.1.fs
      entC4.filename = some [7, 7] :=
  (c4_absent_branch hashLen entC4 wAbsent (SyncProgress.new 1) none
    (by decide) rfl).2.2.2.2 [7, 7] rfl rfl (Or.inl rfl)

/-- C8: the resolver reads the category only through the case-insensitive
REMOVE test — two runs on entries identical except for their (non-REMOVE)
categories produce the same outcome classification, the same failure
message, and the same world, progress and event-channel state. -/
theorem c8_category_noninterference (hashFn : Bytes → Nat) (fn u : Str)
    (dg : Option Str) (cat1 cat2 : Str) (w : World) (p : SyncProgress)
    (tx : Option EventChannel)
    (h1 : isRemoveCategory ⟨fn, u, dg, cat1⟩ = false)
    (h2 : isRemoveCategory ⟨fn, u, dg, cat2⟩ = false) :
    (handle_entry hashFn ⟨fn, u, dg, cat1⟩ w p tx).1.kind =
      (handle_entry hashFn ⟨fn, u, dg, cat2⟩ w p tx).1.kind ∧
    (handle_entry hashFn ⟨fn, u, dg, cat1⟩ w p tx).1.message? =
      (handle_entry hashFn ⟨fn, u, dg, cat2⟩ w p tx).1.message? ∧
    (handle_entry hashFn ⟨fn, u, dg, cat1⟩ w p tx).2 =
      (handle_entry hashFn ⟨fn, u, dg, cat2⟩ w p tx).2 := by
  have hcd : check_and_download hashFn w ⟨fn, u, dg, cat1⟩ =
      check_and_download hashFn w ⟨fn, u, dg, cat2⟩ := rfl
  rcases hres : check_and_download hashFn w ⟨fn, u, dg, cat2⟩ with ⟨res, w1⟩
  rcases res with m | b
  · rw [handle_entry_cad_error hashFn ⟨fn, u, dg, cat1⟩ w p tx w1 m h1
      (hcd.trans hres),
      handle_entry_cad_error hashFn ⟨fn, u, dg, cat2⟩ w p tx w1 m h2 hres]
    exact ⟨rfl, rfl, rfl⟩
  · cases b
    · rw [handle_entry_cad_ok_false hashFn ⟨fn, u, dg, cat1⟩ w p tx w1 h1
        (hcd.trans hres),
        handle_entry_cad_ok_false hashFn ⟨fn, u, dg, cat2⟩ w p tx w1 h2 hres]
      exact ⟨rfl, rfl, rfl⟩
    · rw [handle_entry_cad_ok_true hashFn ⟨fn, u, dg, cat1⟩ w p tx w1 h1
        (hcd.trans hres),
        handle_entry_cad_ok_true hashFn ⟨fn, u, dg, cat2⟩ w p tx w1 h2 hres]
      exact ⟨rfl, rfl, rfl⟩

/-- Witness for C8 at the categories Optional and Shaders. -/
theorem c8_category_noninterference_witness :
    (handle_entry hashLen ⟨fileA, "http://u".toList, none, "Optional".toList⟩
      wPresent (SyncProgress.new 1) none).1.kind =
      (handle_entry hashLen ⟨fileA, "http://u".toList, none, "Shaders".toList⟩
        wPresent (SyncProgress.new 1) none).1.kind ∧
    (handle_entry hashLen ⟨fileA, "http://u".toList, none, "Optional".toList⟩
      wPresent (SyncProgress.new 1) none).1.message? =
      (handle_entry hashLen ⟨fileA, "http://u".toList, none, "Shaders".toList⟩
        wPresent (SyncProgress.new 1) none).1.message? ∧
    (handle_entry hashLen ⟨fileA, "http://u".toList, none, "Optional".toList⟩
      wPresent (SyncProgress.new 1) none).2 =
      (handle_entry hashLen ⟨fileA, "http://u".toList, none, "Shaders".toList⟩
        wPresent (SyncProgress.new 1) none).2 :=
  c8_category_noninterference hashLen fileA "http://u".toList none
    "Optional".toList "Shaders".toList wPresent (SyncProgress.new 1) none
    (by decide) (by decide)

theorem toHex64_length (n : Nat) : (toHex64 n).length = 64 := by
  simp [toHex64]

theorem toHex64_ne_nil (n : Nat) : toHex64 n ≠ [] := by
  intro h
  have h2 := congrArg List.length h
  rw [toHex64_length] at h2
  simp at h2

theorem eqIgnoreAsciiCase_nil_right (a : Str) (ha : a ≠ []) :
    eqIgnoreAsciiCase a [] = false := by
  have hm : a.map asciiLower ≠ [] := by simp [ha]
  simp [eqIgnoreAsciiCase]
  exact ha

/-- C10: a manifest line with a trailing delimiter and empty fourth field
parses to an entry whose digest is Some of the empty string, not None; the
hex form of a computed digest is never empty (it always has 64 characters);
consequently a non-REMOVE entry with digest Some empty whose local file
exists always resolves to Failed, never Unchanged. -/
theorem c10_empty_digest :
    (parse_line "REQUIRED|a.jar|http://x|".toList =
      some { filename := "a.jar".toList, url := "http://x".toList,
             sha256 := some [], category := "REQUIRED".toList })
    ∧ (∀ n, toHex64 n ≠ [])
    ∧ (∀ (hashFn : Bytes → Nat) (e : ModEntry) (w : World) (p : SyncProgress)
        (tx : Option EventChannel),
        e.sha256 = some [] → isRemoveCategory e = false →
        (w.fs e.filename).isSome = true →
        (handle_entry hashFn e w p tx).1.kind = OutcomeKind.failed) := by
  refine ⟨by decide, toHex64_ne_nil, ?_⟩
  intro hashFn e w p tx hsha hnr hfs
  rcases hdata : w.fs e.filename with _ | data
  · rw [hdata] at hfs; simp at hfs
  · by_cases hread : w.readFails e.filename = true
    · rw [handle_entry_cad_error hashFn e w p tx w _ hnr
        (cad_exists_readfail hashFn w e [] hfs hsha hread)]
      rfl
    · have hread2 : w.readFails e.filename = false := by
        rcases hb : w.readFails e.filename
        · rfl
        · exact absurd hb hread
      have heq : eqIgnoreAsciiCase (toHex64 (hashFn data)) [] = false :=
        eqIgnoreAsciiCase_nil_right _ (toHex64_ne_nil _)
      rw [handle_entry_cad_error hashFn e w p tx w _ hnr
        (cad_exists_mismatch hashFn w e data [] hdata hsha hread2 heq)]
      rfl

/-- The entry of the C10 witness, as parsed from `REQUIRED|a.jar|http://x|`. -/
def entC10 : ModEntry :=
  { filename := "a.jar".toList, url := "http://x".toList, sha256 := some [],
    category := "REQUIRED".toList }

/-- A concrete world with `a.jar` present for the C10 witness. -/
def wC10 : World :=
  { fs := fun q => if q = "a.jar".toList then some [5] else none,
    fetch := fun _ => Except.error NetErr.sendFail,
    writeFails := fun _ => false,
    removeErr := fun _ => none,
    readFails := fun _ => false,
    modsDirExists := true,
    mkdirOk := true }

/-- Witness for C10: the parsed empty-digest entry on a present file
resolves to Failed. -/
theorem c10_empty_digest_witness :
    (handle_entry hashLen entC10 wC10 (SyncProgress.new 1) none).1.kind =
      OutcomeKind.failed :=
  c10_empty_digest.2.2 hashLen entC10 wC10 (SyncProgress.new 1) none rfl
    (by decide) (by decide)

/-- C6: under the scheduler semantics of `buffer_unordered(8)` — start a
pending entry only while fewer than 8 are in flight, finish in-flight
entries in any order — every state reachable from the initial state of any
manifest has at most 8 entries in flight. -/
theorem c6_concurrency_bound (entries : List ModEntry) (s : SchedState)
    (h : SchedReachable 8 (initSched entries) s) : s.inFlight.length ≤ 8 := by
  have key : ∀ s1 : SchedState, SchedReachable 8 (initSched entries) s1 →
      s1.inFlight.length ≤ 8 := by
    intro s1 hreach
    induction hreach with
    | refl => simp [initSched]
    | tail hab hbc ih =>
      cases hbc with
      | start e rest fl dn hlt =>
        simp only [List.length_cons]
        omega
      | finish e fl1 fl2 pd dn =>
        simp only [List.length_append, List.length_cons] at ih ⊢
        omega
  exact key s h

/-- The entry of the C6 witness. -/
def entC6 : ModEntry :=
  { filename := "m.jar".toList, url := "http://m".toList, sha256 := none,
    category := "REQUIRED".toList }

/-- Witness for C6: a concrete reachable state (one entry started). -/
theorem c6_concurrency_bound_witness :
    (SchedState.mk [] [entC6] []).inFlight.length ≤ 8 :=
  c6_concurrency_bound [entC6] (SchedState.mk [] [entC6] [])
    (Relation.ReflTransGen.tail Relation.ReflTransGen.refl
      (SchedStep.start entC6 [] [] [] (by decide)))

/-- The event channel whose receiver has been dropped, for C7. -/
def closedChan : EventChannel := { closed := true, delivered := [] }

/-- C7 (the code contradicts the claim): with no event channel a run
returns Ok with its report, but with a channel whose receiver was dropped
the per-entry events are silently dropped while the terminal Finished
send's error is propagated by the `?` on it, so the run returns Err instead
of the same Ok report — both on the empty manifest and on a manifest whose
entry resolves normally. -/
theorem c7_finished_send_error :
    sync_all_from_entries hashLen [] wPresent (SyncProgress.new 0) none =
      Except.ok
        ({ downloaded := [], unchanged := [], removed := [], failed := [] },
         wPresent, SyncProgress.new 0, none)
    ∧ sync_all_from_entries hashLen [] wPresent (SyncProgress.new 0)
        (some closedChan) = Except.error msgChannelClosed
    ∧ sync_all_from_entries hashLen [entC2] wPresent (SyncProgress.new 1)
        (some closedChan) = Except.error msgChannelClosed :=
  ⟨rfl, rfl, rfl⟩

end ModSync